import Mathlib

/-!
Shallow embedding of `reenc-image` (src/main.rs).

The program re-encodes image files with a fixed catalog of encoding
strategies, keeping the first result whose byte size is strictly below a
target size, and writes it next to the input file.

Modelling choices:
* A filesystem is an association list from paths to byte contents.
* Paths are lists of components (Rust `Path` components, with `.` components
  already normalized away as Rust does); `..` is the literal parent component.
* Bytes are modelled as `List Nat`; only lengths and identities matter here.
* The external image codec (the `image` crate) is an environment: a decode
  function on file bytes, and an encode function taking the encoder
  configuration (`EncoderSpec`) chosen by each strategy.
* `File::create_new` fails iff the path already exists; `write_all` on a
  freshly created file stores the whole buffer.  A Rust panic (from
  `.expect(..)`) is a distinct result constructor.
-/

namespace ReencImage

/-- Byte contents of a file. -/
abbrev Bytes := List Nat

/-- A filesystem path, as its list of components. -/
abbrev RPath := List String

/-- A filesystem: an association list from paths to file contents. -/
abbrev FS := List (RPath × Bytes)

/-- Association-list lookup in a filesystem. -/
def fsLookup : FS → RPath → Option Bytes
  | [], _ => none
  | (q, c) :: rest, p => if q = p then some c else fsLookup rest p

/-- The io error kinds that arise in this model: `File::open` on a missing
file, and `File::create_new` on an existing path. -/
inductive IoErrorKind
  | notFound
  | alreadyExists
deriving DecidableEq, Repr

/-- Embedding of the `Error` enum of src/main.rs: image-crate errors
(carrying their message), io errors, and the target-unreachable error. -/
inductive Error
  | Image (msg : String)
  | Io (kind : IoErrorKind)
  | ImageSizeExceedsTarget
deriving DecidableEq, Repr

/-- Embedding of the `ConversionOutcome` enum of src/main.rs. -/
inductive ConversionOutcome
  | Converted (original_size new_size : Nat) (new_path : RPath)
  | Skipped (original_size : Nat)
deriving DecidableEq, Repr

/-- Result of one run of `re_convert_image`: a normal `Ok`, a returned
error, or a Rust panic (from `.expect(..)`). -/
inductive RunResult
  | ok (outcome : ConversionOutcome)
  | error (e : Error)
  | panicked (msg : String)
deriving DecidableEq, Repr

/-- `image::codecs::png::CompressionType` (the variants the crate exposes). -/
inductive CompressionType
  | Default
  | Fast
  | Best
deriving DecidableEq, Repr

/-- `image::codecs::png::FilterType` (the variants the crate exposes). -/
inductive FilterType
  | NoFilter
  | Sub
  | Up
  | Avg
  | Paeth
  | Adaptive
deriving DecidableEq, Repr

/-- The encoder configuration a strategy hands to the image crate:
either a PNG encoder with a compression type and filter type, or a JPEG
encoder with a quality (0-100). -/
inductive EncoderSpec
  | png (compression : CompressionType) (filter : FilterType)
  | jpeg (quality : Nat)
deriving DecidableEq, Repr

/-- The external image codec library, abstracted: `decode` interprets file
bytes (it may fail with any `Error`, covering both the `with_guessed_format`
io failure and the decode failure), and `encode` runs
`write_with_encoder` for a given encoder configuration, producing the
encoded bytes or an image-crate error message. -/
structure Env (Img : Type) where
  decode : Bytes → Except Error Img
  encode : EncoderSpec → Img → Except String Bytes

/-- `Path::file_name`: the last component, unless it is `..` (or the path
is empty). -/
def path_file_name (p : RPath) : Option String :=
  match p.getLast? with
  | none => none
  | some s => if s = ".." then none else some s

/-- Split a list of characters at its last dot: returns
`(before, after)` where `before = none` when there is no dot. -/
def rsplitAtLastDot (cs : List Char) : Option (List Char) × List Char :=
  match cs.reverse.span (fun c => c ≠ '.') with
  | (revAfter, []) => (none, revAfter.reverse)
  | (revAfter, _ :: revBefore) => (some revBefore.reverse, revAfter.reverse)

/-- Rust's `rsplit_file_at_dot` on a file name: `..` maps to
`(some "..", none)`; a name with no dot to `(none, some name)`; a name
whose only text before the last dot is empty to `(some name, none)`;
otherwise to `(some before, some after)`. -/
def rsplit_file_at_dot (file : String) : Option String × Option String :=
  if file = ".." then (some file, none)
  else
    match rsplitAtLastDot file.toList with
    | (none, aft) => (none, some (String.mk aft))
    | (some bef, aft) =>
      if bef = [] then (some file, none)
      else (some (String.mk bef), some (String.mk aft))

/-- `Path::file_stem`: the file name before its last dot (with Rust's
special cases for hidden files and names without a dot). -/
def path_file_stem (p : RPath) : Option String :=
  (path_file_name p).bind fun name =>
    match rsplit_file_at_dot name with
    | (bef, aft) => bef.or aft

/-- `Path::with_file_name`: pop the file name if there is one, then push
the new name. -/
def with_file_name (p : RPath) (name : String) : RPath :=
  match path_file_name p with
  | some _ => p.dropLast ++ [name]
  | none => p ++ [name]

/-- A conversion strategy, as in `type ConversionFn`: a function from a
decoded image to encoded bytes plus an extension, or an error. -/
abbrev ConversionFn (Img : Type) := Img → Except Error (Bytes × String)

/-- Body of the `def_conversion_fn!` macro of src/main.rs: create the
configured encoder over a fresh buffer, run `write_with_encoder`
(propagating its error into `Error::Image`), and return the buffer with
the fixed extension. -/
def def_conversion_fn {Img : Type} (encode : EncoderSpec → Img → Except String Bytes)
    (spec : EncoderSpec) (extension : String) : ConversionFn Img := fun image =>
  match encode spec image with
  | Except.error e => Except.error (Error.Image e)
  | Except.ok buf => Except.ok (buf, extension)

/-- `convert_to_png`: PNG with `CompressionType::Best` and
`FilterType::Adaptive`, extension `.png`. -/
def convert_to_png {Img : Type} (encode : EncoderSpec → Img → Except String Bytes) :
    ConversionFn Img :=
  def_conversion_fn encode (EncoderSpec.png CompressionType.Best FilterType.Adaptive) (".png")

/-- `convert_to_jpeg_100`: JPEG at quality 100, extension `.jpg`. -/
def convert_to_jpeg_100 {Img : Type} (encode : EncoderSpec → Img → Except String Bytes) :
    ConversionFn Img :=
  def_conversion_fn encode (EncoderSpec.jpeg 100) (".jpg")

/-- `convert_to_jpeg_90`: JPEG at quality 90, extension `.jpg`. -/
def convert_to_jpeg_90 {Img : Type} (encode : EncoderSpec → Img → Except String Bytes) :
    ConversionFn Img :=
  def_conversion_fn encode (EncoderSpec.jpeg 90) (".jpg")

/-- The `CONVERSION_STRATEGIES` constant of src/main.rs:
`&[convert_to_png, convert_to_jpeg_100, convert_to_jpeg_90]`. -/
def CONVERSION_STRATEGIES {Img : Type} (encode : EncoderSpec → Img → Except String Bytes) :
    List (ConversionFn Img) :=
  [convert_to_png encode, convert_to_jpeg_100 encode, convert_to_jpeg_90 encode]

/-- The `for strategy in CONVERSION_STRATEGIES` loop of `re_convert_image`:
run the strategy (an `Err` propagates immediately); a result of size at or
above the target continues with the next strategy; a result below the
target derives `<stem>-reconv<extension>` next to the input (panicking if
the path has no file stem), creates the file exclusively (an existing path
is an io error), writes the bytes, and returns `Converted`.  An exhausted
catalog returns `ImageSizeExceedsTarget`. -/
def try_strategies {Img : Type} (image_path : RPath) (target_size : Nat)
    (original_size : Nat) (image : Img) (fs : FS) :
    List (ConversionFn Img) → RunResult × FS
  | [] => (RunResult.error Error.ImageSizeExceedsTarget, fs)
  | strategy :: rest =>
    match strategy image with
    | Except.error e => (RunResult.error e, fs)
    | Except.ok (converted_data, extension) =>
      if converted_data.length ≥ target_size then
        try_strategies image_path target_size original_size image fs rest
      else
        match path_file_stem image_path with
        | none => (RunResult.panicked ("image_path must be a file"), fs)
        | some stem =>
          let new_file_name := stem ++ "-reconv" ++ extension
          let new_path := with_file_name image_path new_file_name
          match fsLookup fs new_path with
          | some _ => (RunResult.error (Error.Io IoErrorKind.alreadyExists), fs)
          | none =>
            (RunResult.ok (ConversionOutcome.Converted original_size
                converted_data.length new_path),
             (new_path, converted_data) :: fs)

/-- Embedding of `re_convert_image(image_path, target_size)`: open the file
(a missing file is an io error) and take its size; a size strictly below
the target is `Skipped` at once; otherwise decode (propagating failure)
and run the strategy catalog.  The returned filesystem is the state after
the call. -/
def re_convert_image {Img : Type} (env : Env Img) (fs : FS) (image_path : RPath)
    (target_size : Nat) : RunResult × FS :=
  match fsLookup fs image_path with
  | none => (RunResult.error (Error.Io IoErrorKind.notFound), fs)
  | some content =>
    let original_size := content.length
    if original_size < target_size then
      (RunResult.ok (ConversionOutcome.Skipped original_size), fs)
    else
      match env.decode content with
      | Except.error e => (RunResult.error e, fs)
      | Except.ok image =>
        try_strategies image_path target_size original_size image fs
          (CONVERSION_STRATEGIES env.encode)

/-! Concrete codec environments used to exercise the model on closed
inputs.  The decoded-image type is `Unit`: these environments fix the
behavior of the external codec, which the orchestrator only observes
through `decode` and `encode`. -/

/-- Codec environment whose decoder succeeds and whose encoders all
produce a single byte. -/
def envConv : Env Unit := ⟨fun _ => Except.ok (), fun _ _ => Except.ok [0]⟩

/-- Codec environment whose decoder succeeds and whose encoders all
produce three bytes. -/
def envBig3 : Env Unit := ⟨fun _ => Except.ok (), fun _ _ => Except.ok [0, 0, 0]⟩

/-- Codec environment whose decoder succeeds and whose encoders all
produce zero bytes: the most favorable codec for any size target. -/
def envIdeal : Env Unit := ⟨fun _ => Except.ok (), fun _ _ => Except.ok []⟩

/-- Codec environment whose PNG encoder produces three bytes and whose
JPEG encoder always fails. -/
def envJpegErr : Env Unit :=
  ⟨fun _ => Except.ok (), fun spec _ =>
    match spec with
    | EncoderSpec.png _ _ => Except.ok [0, 0, 0]
    | EncoderSpec.jpeg _ => Except.error ("boom")⟩

/-- Codec environment whose decoder always fails. -/
def envNoDecode : Env Unit :=
  ⟨fun _ => Except.error (Error.Image ("undecodable")),
   fun _ _ => Except.error ("unused")⟩

/-! Helper lemmas about the strategy loop. -/

/-- A successful result of the strategy loop is a `Converted` outcome
carrying the given original size and a new size strictly below the
target. -/
theorem try_strategies_ok {Img : Type} (image_path : RPath) (t o : Nat) (image : Img)
    (fs : FS) (l : List (ConversionFn Img)) (out : ConversionOutcome) (fs' : FS)
    (h : try_strategies image_path t o image fs l = (RunResult.ok out, fs')) :
    ∃ n p, out = ConversionOutcome.Converted o n p ∧ n < t := by
  induction l with
  | nil => simp [try_strategies] at h
  | cons s rest ih =>
    rw [try_strategies] at h
    cases hs : s image with
    | error e => rw [hs] at h; simp at h
    | ok pr =>
      obtain ⟨buf, ext⟩ := pr
      rw [hs] at h
      dsimp only [] at h
      by_cases hlen : buf.length ≥ t
      · rw [if_pos hlen] at h
        exact ih h
      · rw [if_neg hlen] at h
        cases hstem : path_file_stem image_path with
        | none => rw [hstem] at h; simp at h
        | some stem =>
          rw [hstem] at h
          simp only [] at h
          cases hlk : fsLookup fs
              (with_file_name image_path (stem ++ "-reconv" ++ ext)) with
          | some old => rw [hlk] at h; simp at h
          | none =>
            rw [hlk] at h
            simp only [Prod.mk.injEq, RunResult.ok.injEq] at h
            exact ⟨buf.length, with_file_name image_path (stem ++ "-reconv" ++ ext),
              h.1.symm, Nat.lt_of_not_le hlen⟩

/-- Frame lemma for the strategy loop: either the filesystem is unchanged,
or exactly one new file was prepended, at a previously absent path, holding
bytes strictly below the target, and the result reports that conversion. -/
theorem try_strategies_fs {Img : Type} (image_path : RPath) (t o : Nat) (image : Img)
    (fs : FS) (l : List (ConversionFn Img)) :
    (try_strategies image_path t o image fs l).2 = fs ∨
    ∃ p d, (try_strategies image_path t o image fs l).2 = (p, d) :: fs ∧
      fsLookup fs p = none ∧ d.length < t ∧
      (try_strategies image_path t o image fs l).1 =
        RunResult.ok (ConversionOutcome.Converted o d.length p) := by
  induction l with
  | nil => left; rfl
  | cons s rest ih =>
    rw [try_strategies]
    cases hs : s image with
    | error e => left; rfl
    | ok pr =>
      obtain ⟨buf, ext⟩ := pr
      dsimp only []
      by_cases hlen : buf.length ≥ t
      · rw [if_pos hlen]
        exact ih
      · rw [if_neg hlen]
        cases hstem : path_file_stem image_path with
        | none => left; rfl
        | some stem =>
          dsimp only []
          cases hlk : fsLookup fs
              (with_file_name image_path (stem ++ "-reconv" ++ ext)) with
          | some old => left; rfl
          | none =>
            right
            exact ⟨with_file_name image_path (stem ++ "-reconv" ++ ext), buf,
              rfl, hlk, Nat.lt_of_not_le hlen, rfl⟩

/-- Strategies that succeed with a result at or above the target are
skipped: the loop over `l₁ ++ l₂` equals the loop over `l₂` when every
member of `l₁` does so. -/
theorem try_strategies_append {Img : Type} (image_path : RPath) (t o : Nat)
    (image : Img) (fs : FS) (l₁ l₂ : List (ConversionFn Img))
    (hbig : ∀ st ∈ l₁, ∃ buf ext, st image = Except.ok (buf, ext) ∧ t ≤ buf.length) :
    try_strategies image_path t o image fs (l₁ ++ l₂) =
      try_strategies image_path t o image fs l₂ := by
  induction l₁ with
  | nil => rfl
  | cons s rest ih =>
    obtain ⟨buf, ext, hs, hlen⟩ := hbig s (by simp)
    rw [List.cons_append, try_strategies, hs]
    dsimp only []
    rw [if_pos hlen]
    exact ih fun st hst => hbig st (List.mem_cons_of_mem s hst)

/-- The strategy loop never panics when the input path has a file stem. -/
theorem try_strategies_no_panic {Img : Type} (image_path : RPath) (t o : Nat)
    (image : Img) (fs : FS) (stem : String)
    (hstem : path_file_stem image_path = some stem)
    (l : List (ConversionFn Img)) (msg : String) :
    (try_strategies image_path t o image fs l).1 ≠ RunResult.panicked msg := by
  induction l with
  | nil => simp [try_strategies]
  | cons s rest ih =>
    rw [try_strategies]
    cases hs : s image with
    | error e => simp
    | ok pr =>
      obtain ⟨buf, ext⟩ := pr
      dsimp only []
      by_cases hlen : buf.length ≥ t
      · rw [if_pos hlen]
        exact ih
      · rw [if_neg hlen, hstem]
        dsimp only []
        cases hlk : fsLookup fs
            (with_file_name image_path (stem ++ "-reconv" ++ ext)) with
        | some old => simp
        | none => simp

/-- A path with a file stem has a file name. -/
theorem path_file_name_of_stem {p : RPath} {stem : String}
    (h : path_file_stem p = some stem) : ∃ fn, path_file_name p = some fn := by
  unfold path_file_stem at h
  cases hfn : path_file_name p with
  | none => rw [hfn] at h; simp at h
  | some fn => exact ⟨fn, rfl⟩

/-- On a path with a file stem, `with_file_name` replaces the final
component. -/
theorem with_file_name_of_stem {p : RPath} {stem : String}
    (h : path_file_stem p = some stem) (name : String) :
    with_file_name p name = p.dropLast ++ [name] := by
  obtain ⟨fn, hfn⟩ := path_file_name_of_stem h
  unfold with_file_name
  rw [hfn]

/-- Unfolding of `re_convert_image` down to the strategy loop, under the
hypotheses that the file exists, is not below the target, and decodes. -/
theorem re_convert_image_eq_try {Img : Type} (env : Env Img) (fs : FS)
    (image_path : RPath) (t : Nat) (content : Bytes) (image : Img)
    (hread : fsLookup fs image_path = some content)
    (hsize : ¬ content.length < t)
    (hdec : env.decode content = Except.ok image) :
    re_convert_image env fs image_path t =
      try_strategies image_path t content.length image fs
        (CONVERSION_STRATEGIES env.encode) := by
  unfold re_convert_image
  rw [hread]
  dsimp only []
  rw [if_neg hsize, hdec]

/-- A successful call satisfies the size bounds: a `Converted` outcome's
new size and a `Skipped` outcome's original size are below the target. -/
theorem re_convert_ok_aux {Img : Type} (env : Env Img) (fs : FS)
    (image_path : RPath) (t : Nat) (out : ConversionOutcome) (fs' : FS)
    (h : re_convert_image env fs image_path t = (RunResult.ok out, fs')) :
    (∀ o n p, out = ConversionOutcome.Converted o n p → n < t) ∧
    (∀ o, out = ConversionOutcome.Skipped o → o < t) := by
  unfold re_convert_image at h
  cases hread : fsLookup fs image_path with
  | none => rw [hread] at h; simp at h
  | some content =>
    rw [hread] at h
    dsimp only [] at h
    by_cases hsize : content.length < t
    · rw [if_pos hsize] at h
      simp only [Prod.mk.injEq, RunResult.ok.injEq] at h
      obtain ⟨h1, -⟩ := h
      subst h1
      refine ⟨?_, ?_⟩
      · intro o n p hcp
        cases hcp
      · intro o hsk
        injection hsk with ho
        rw [← ho]
        exact hsize
    · rw [if_neg hsize] at h
      cases hdec : env.decode content with
      | error e => rw [hdec] at h; simp at h
      | ok image =>
        rw [hdec] at h
        obtain ⟨n, p, hout, hn⟩ :=
          try_strategies_ok image_path t content.length image fs
            (CONVERSION_STRATEGIES env.encode) out fs' h
        subst hout
        refine ⟨?_, ?_⟩
        · intro o' n' p' hcp
          injection hcp with _ h2 _
          rw [← h2]
          exact hn
        · intro o hsk
          cases hsk

/-- Every strategy of the catalog reports extension `.png` or `.jpg`
whenever it succeeds. -/
theorem conversion_strategies_ext {Img : Type}
    (encode : EncoderSpec → Img → Except String Bytes) :
    ∀ st ∈ CONVERSION_STRATEGIES encode, ∀ (image : Img) (buf : Bytes) (ext : String),
      st image = Except.ok (buf, ext) → ext = ".png" ∨ ext = ".jpg" := by
  intro st hst image buf ext h
  simp only [CONVERSION_STRATEGIES, List.mem_cons, List.not_mem_nil, or_false] at hst
  rcases hst with rfl | rfl | rfl
  · unfold convert_to_png def_conversion_fn at h
    cases hE : encode (EncoderSpec.png CompressionType.Best FilterType.Adaptive) image with
    | error e => rw [hE] at h; simp at h
    | ok buf2 =>
      rw [hE] at h
      simp only [Except.ok.injEq, Prod.mk.injEq] at h
      exact Or.inl h.2.symm
  · unfold convert_to_jpeg_100 def_conversion_fn at h
    cases hE : encode (EncoderSpec.jpeg 100) image with
    | error e => rw [hE] at h; simp at h
    | ok buf2 =>
      rw [hE] at h
      simp only [Except.ok.injEq, Prod.mk.injEq] at h
      exact Or.inr h.2.symm
  · unfold convert_to_jpeg_90 def_conversion_fn at h
    cases hE : encode (EncoderSpec.jpeg 90) image with
    | error e => rw [hE] at h; simp at h
    | ok buf2 =>
      rw [hE] at h
      simp only [Except.ok.injEq, Prod.mk.injEq] at h
      exact Or.inr h.2.symm

/-- Shape of a successful outcome's path, for a strategy list whose
successful extensions are `.png` or `.jpg`: the new path replaces the
final component with `<stem>-reconv<ext>`. -/
theorem try_strategies_path {Img : Type} (image_path : RPath) (t o : Nat)
    (image : Img) (fs : FS) (l : List (ConversionFn Img))
    (hext : ∀ st ∈ l, ∀ (buf : Bytes) (ext : String),
      st image = Except.ok (buf, ext) → ext = ".png" ∨ ext = ".jpg")
    (out : ConversionOutcome) (fs' : FS)
    (h : try_strategies image_path t o image fs l = (RunResult.ok out, fs')) :
    ∃ stem ext n, path_file_stem image_path = some stem ∧
      (ext = ".png" ∨ ext = ".jpg") ∧
      out = ConversionOutcome.Converted o n
        (image_path.dropLast ++ [stem ++ "-reconv" ++ ext]) := by
  induction l with
  | nil => simp [try_strategies] at h
  | cons s rest ih =>
    rw [try_strategies] at h
    cases hs : s image with
    | error e => rw [hs] at h; simp at h
    | ok pr =>
      obtain ⟨buf, ext⟩ := pr
      rw [hs] at h
      dsimp only [] at h
      by_cases hlen : buf.length ≥ t
      · rw [if_pos hlen] at h
        exact ih (fun st hst => hext st (List.mem_cons_of_mem s hst)) h
      · rw [if_neg hlen] at h
        cases hstem : path_file_stem image_path with
        | none => rw [hstem] at h; simp at h
        | some stem =>
          rw [hstem] at h
          dsimp only [] at h
          cases hlk : fsLookup fs
              (with_file_name image_path (stem ++ "-reconv" ++ ext)) with
          | some old => rw [hlk] at h; simp at h
          | none =>
            rw [hlk] at h
            simp only [Prod.mk.injEq, RunResult.ok.injEq] at h
            refine ⟨stem, ext, buf.length, rfl,
              hext s (List.mem_cons_self s rest) buf ext hs, ?_⟩
            rw [← h.1, with_file_name_of_stem hstem]

/-! Claim theorems. -/

/-- C1: every successful `re_convert_image` call respects the target: a
`Converted` outcome's `new_size` is strictly below `target_size`, and a
`Skipped` outcome's `original_size` is strictly below `target_size`. -/
theorem outcome_sizes_below_target {Img : Type} (env : Env Img) (fs : FS)
    (image_path : RPath) (t : Nat) (out : ConversionOutcome) (fs' : FS)
    (h : re_convert_image env fs image_path t = (RunResult.ok out, fs')) :
    match out with
    | ConversionOutcome.Converted _ n _ => n < t
    | ConversionOutcome.Skipped o => o < t := by
  obtain ⟨h1, h2⟩ := re_convert_ok_aux env fs image_path t out fs' h
  cases out with
  | Converted o n p => exact h1 o n p rfl
  | Skipped o => exact h2 o rfl

/-- Witness for C1 at a concrete converted input: a 3-byte file with a
1-byte encoding against target 2. -/
theorem outcome_sizes_below_target_witness :
    match ConversionOutcome.Converted 3 1 ["pic-reconv.png"] with
    | ConversionOutcome.Converted _ n _ => n < 2
    | ConversionOutcome.Skipped o => o < 2 :=
  outcome_sizes_below_target envConv [(["pic.png"], [0, 0, 0])] ["pic.png"] 2
    (ConversionOutcome.Converted 3 1 ["pic-reconv.png"])
    [(["pic-reconv.png"], [0]), (["pic.png"], [0, 0, 0])] rfl

/-- C2: a file strictly below the target is reported as
`Skipped {original_size}` with the actual file size, for every codec
environment (so without consulting the decoder at all), and with the
filesystem unchanged (no file created). -/
theorem small_file_skipped {Img : Type} (env : Env Img) (fs : FS)
    (image_path : RPath) (t : Nat) (content : Bytes)
    (hread : fsLookup fs image_path = some content)
    (hlt : content.length < t) :
    re_convert_image env fs image_path t =
      (RunResult.ok (ConversionOutcome.Skipped content.length), fs) := by
  unfold re_convert_image
  rw [hread]
  dsimp only []
  rw [if_pos hlt]

/-- Witness for C2: a 1-byte file against the default 15 MiB target, in an
environment whose decoder always fails, is still skipped with the
filesystem unchanged. -/
theorem small_file_skipped_witness :
    re_convert_image envNoDecode [(["icon.png"], [0])] ["icon.png"] 15728640 =
      (RunResult.ok (ConversionOutcome.Skipped 1), [(["icon.png"], [0])]) :=
  small_file_skipped envNoDecode [(["icon.png"], [0])] ["icon.png"] 15728640 [0]
    rfl (by decide)

/-- C3: during the catalog iteration, a strategy whose encode fails makes
the whole call return that error immediately, with the filesystem
unchanged; the strategies after it (`l₂`, arbitrary here) are never
consulted.  Only a successful-but-too-big encode falls through. -/
theorem encode_error_propagates {Img : Type} (env : Env Img) (fs : FS)
    (image_path : RPath) (t : Nat) (content : Bytes) (image : Img)
    (l₁ l₂ : List (ConversionFn Img)) (s : ConversionFn Img) (e : Error)
    (hread : fsLookup fs image_path = some content)
    (hsize : ¬ content.length < t)
    (hdec : env.decode content = Except.ok image)
    (hcat : CONVERSION_STRATEGIES env.encode = l₁ ++ s :: l₂)
    (hbig : ∀ st ∈ l₁, ∃ buf ext, st image = Except.ok (buf, ext) ∧ t ≤ buf.length)
    (herr : s image = Except.error e) :
    re_convert_image env fs image_path t = (RunResult.error e, fs) := by
  rw [re_convert_image_eq_try env fs image_path t content image hread hsize hdec, hcat,
    try_strategies_append image_path t content.length image fs l₁ (s :: l₂) hbig,
    try_strategies, herr]

/-- Witness for C3: PNG encodes too big, JPEG-100 fails, and the call
returns the JPEG error without reaching JPEG-90. -/
theorem encode_error_propagates_witness :
    re_convert_image envJpegErr [(["pic.png"], [0, 0, 0])] ["pic.png"] 2 =
      (RunResult.error (Error.Image ("boom")), [(["pic.png"], [0, 0, 0])]) :=
  encode_error_propagates envJpegErr [(["pic.png"], [0, 0, 0])] ["pic.png"] 2 [0, 0, 0] ()
    [convert_to_png envJpegErr.encode] [convert_to_jpeg_90 envJpegErr.encode]
    (convert_to_jpeg_100 envJpegErr.encode) (Error.Image ("boom"))
    rfl (by decide) rfl rfl
    (by
      intro st hst
      rw [List.mem_singleton] at hst
      subst hst
      exact ⟨[0, 0, 0], ".png", rfl, by decide⟩)
    rfl

/-- C4: when the file is at or above the target, decoding succeeds, and
every catalog strategy encodes successfully but at or above the target,
the call fails with `ImageSizeExceedsTarget` and the filesystem is
unchanged (no output file exists afterward). -/
theorem catalog_exhausted_error {Img : Type} (env : Env Img) (fs : FS)
    (image_path : RPath) (t : Nat) (content : Bytes) (image : Img)
    (hread : fsLookup fs image_path = some content)
    (hsize : ¬ content.length < t)
    (hdec : env.decode content = Except.ok image)
    (hbig : ∀ st ∈ CONVERSION_STRATEGIES env.encode,
      ∃ buf ext, st image = Except.ok (buf, ext) ∧ t ≤ buf.length) :
    re_convert_image env fs image_path t =
      (RunResult.error Error.ImageSizeExceedsTarget, fs) := by
  have h2 := try_strategies_append image_path t content.length image fs
    (CONVERSION_STRATEGIES env.encode) [] hbig
  rw [List.append_nil] at h2
  rw [re_convert_image_eq_try env fs image_path t content image hread hsize hdec, h2]
  rfl

/-- Witness for C4: all three strategies produce three bytes against
target 2 on a 3-byte file. -/
theorem catalog_exhausted_error_witness :
    re_convert_image envBig3 [(["pic.png"], [0, 0, 0])] ["pic.png"] 2 =
      (RunResult.error Error.ImageSizeExceedsTarget, [(["pic.png"], [0, 0, 0])]) :=
  catalog_exhausted_error envBig3 [(["pic.png"], [0, 0, 0])] ["pic.png"] 2 [0, 0, 0] ()
    rfl (by decide) rfl
    (by
      intro st hst
      simp only [CONVERSION_STRATEGIES, List.mem_cons, List.not_mem_nil, or_false] at hst
      rcases hst with rfl | rfl | rfl
      · exact ⟨[0, 0, 0], ".png", rfl, by decide⟩
      · exact ⟨[0, 0, 0], ".jpg", rfl, by decide⟩
      · exact ⟨[0, 0, 0], ".jpg", rfl, by decide⟩)

/-- C5: when the winning strategy's derived output path already exists,
the call fails with the `create_new` io error (`alreadyExists`) instead of
overwriting, and the filesystem — including the pre-existing file at that
path — is returned unchanged. -/
theorem output_collision_fails {Img : Type} (env : Env Img) (fs : FS)
    (image_path : RPath) (t : Nat) (content : Bytes) (image : Img)
    (l₁ l₂ : List (ConversionFn Img)) (s : ConversionFn Img)
    (buf : Bytes) (ext stem : String) (old : Bytes)
    (hread : fsLookup fs image_path = some content)
    (hsize : ¬ content.length < t)
    (hdec : env.decode content = Except.ok image)
    (hcat : CONVERSION_STRATEGIES env.encode = l₁ ++ s :: l₂)
    (hbig : ∀ st ∈ l₁, ∃ b e, st image = Except.ok (b, e) ∧ t ≤ b.length)
    (hok : s image = Except.ok (buf, ext))
    (hlen : buf.length < t)
    (hstem : path_file_stem image_path = some stem)
    (hcol : fsLookup fs (with_file_name image_path (stem ++ "-reconv" ++ ext)) =
      some old) :
    re_convert_image env fs image_path t =
      (RunResult.error (Error.Io IoErrorKind.alreadyExists), fs) := by
  rw [re_convert_image_eq_try env fs image_path t content image hread hsize hdec, hcat,
    try_strategies_append image_path t content.length image fs l₁ (s :: l₂) hbig,
    try_strategies, hok]
  dsimp only []
  rw [if_neg (Nat.not_le_of_lt hlen), hstem]
  dsimp only []
  rw [hcol]

/-- Witness for C5: `pic-reconv.png` already exists; the call fails with
`alreadyExists` and the filesystem keeps the old file's bytes. -/
theorem output_collision_fails_witness :
    re_convert_image envConv
      [(["pic.png"], [0, 0, 0]), (["pic-reconv.png"], [7])] ["pic.png"] 2 =
      (RunResult.error (Error.Io IoErrorKind.alreadyExists),
       [(["pic.png"], [0, 0, 0]), (["pic-reconv.png"], [7])]) :=
  output_collision_fails envConv
    [(["pic.png"], [0, 0, 0]), (["pic-reconv.png"], [7])] ["pic.png"] 2 [0, 0, 0] ()
    [] [convert_to_jpeg_100 envConv.encode, convert_to_jpeg_90 envConv.encode]
    (convert_to_png envConv.encode) [0] (".png") ("pic") [7]
    rfl (by decide) rfl rfl
    (fun st hst => absurd hst (List.not_mem_nil st))
    rfl (by decide) rfl rfl

/-- C6: the strategy catalog is exactly the three strategies, in order:
lossless PNG at `CompressionType::Best` with `FilterType::Adaptive` and
extension `.png`, then JPEG at quality 100 with extension `.jpg`, then
JPEG at quality 90 with extension `.jpg`. -/
theorem conversion_strategies_catalog {Img : Type}
    (encode : EncoderSpec → Img → Except String Bytes) :
    CONVERSION_STRATEGIES encode =
      [def_conversion_fn encode
        (EncoderSpec.png CompressionType.Best FilterType.Adaptive) (".png"),
       def_conversion_fn encode (EncoderSpec.jpeg 100) (".jpg"),
       def_conversion_fn encode (EncoderSpec.jpeg 90) (".jpg")] := rfl

/-- C7: a successful conversion's new path is the input path's directory
plus `<stem>-reconv<ext>`, where `stem` is the input's file stem and
`ext` is `.png` or `.jpg`. -/
theorem converted_path_shape {Img : Type} (env : Env Img) (fs : FS)
    (image_path : RPath) (t o n : Nat) (p : RPath) (fs' : FS)
    (h : re_convert_image env fs image_path t =
      (RunResult.ok (ConversionOutcome.Converted o n p), fs')) :
    ∃ stem ext, path_file_stem image_path = some stem ∧
      (ext = ".png" ∨ ext = ".jpg") ∧
      p = image_path.dropLast ++ [stem ++ "-reconv" ++ ext] := by
  unfold re_convert_image at h
  cases hread : fsLookup fs image_path with
  | none => rw [hread] at h; simp at h
  | some content =>
    rw [hread] at h
    dsimp only [] at h
    by_cases hsize : content.length < t
    · rw [if_pos hsize] at h
      simp at h
    · rw [if_neg hsize] at h
      cases hdec : env.decode content with
      | error e => rw [hdec] at h; simp at h
      | ok image =>
        rw [hdec] at h
        obtain ⟨stem, ext, n', hstem, hext, hout⟩ :=
          try_strategies_path image_path t content.length image fs
            (CONVERSION_STRATEGIES env.encode)
            (fun st hst buf ext => conversion_strategies_ext env.encode st hst image buf ext)
            _ fs' h
        injection hout with ho hn hp
        exact ⟨stem, ext, hstem, hext, hp⟩

/-- Witness for C7 at the concrete conversion of `pic.png`. -/
theorem converted_path_shape_witness :
    ∃ stem ext, path_file_stem ["pic.png"] = some stem ∧
      (ext = ".png" ∨ ext = ".jpg") ∧
      (["pic-reconv.png"] : RPath) =
        List.dropLast ["pic.png"] ++ [stem ++ "-reconv" ++ ext] :=
  converted_path_shape envConv [(["pic.png"], [0, 0, 0])] ["pic.png"] 2 3 1
    ["pic-reconv.png"] [(["pic-reconv.png"], [0]), (["pic.png"], [0, 0, 0])] rfl

/-- C8: a call changes the filesystem by at most one new file, created
only for a strategy result already below the target, at a previously
absent path, holding the full encoded bytes; every failing call leaves the
filesystem exactly as it was (no partial or truncated file). -/
theorem at_most_one_write {Img : Type} (env : Env Img) (fs : FS)
    (image_path : RPath) (t : Nat) :
    (re_convert_image env fs image_path t).2 = fs ∨
    ∃ p d o, (re_convert_image env fs image_path t).2 = (p, d) :: fs ∧
      fsLookup fs p = none ∧ d.length < t ∧
      (re_convert_image env fs image_path t).1 =
        RunResult.ok (ConversionOutcome.Converted o d.length p) := by
  unfold re_convert_image
  cases hread : fsLookup fs image_path with
  | none => left; rfl
  | some content =>
    dsimp only []
    by_cases hsize : content.length < t
    · rw [if_pos hsize]
      left
      rfl
    · rw [if_neg hsize]
      cases hdec : env.decode content with
      | error e => left; rfl
      | ok image =>
        rcases try_strategies_fs image_path t content.length image fs
            (CONVERSION_STRATEGIES env.encode) with hA | ⟨p, d, h1, h2, h3, h4⟩
        · left; exact hA
        · right; exact ⟨p, d, content.length, h1, h2, h3, h4⟩

/-- C9 (amended): with `target_size = 0` no call ever returns an `Ok`
outcome — neither `Skipped` nor `Converted` — even for an empty input
file, since no byte length is strictly below zero. -/
theorem target_zero_never_ok {Img : Type} (env : Env Img) (fs : FS)
    (image_path : RPath) (out : ConversionOutcome) (fs' : FS) :
    re_convert_image env fs image_path 0 ≠ (RunResult.ok out, fs') := by
  intro h
  obtain ⟨h1, h2⟩ := re_convert_ok_aux env fs image_path 0 out fs' h
  cases out with
  | Converted o n p => exact absurd (h1 o n p rfl) (Nat.not_lt_zero n)
  | Skipped o => exact absurd (h2 o rfl) (Nat.not_lt_zero o)

/-- Witness for C9's amended theorem at a concrete input. -/
theorem target_zero_never_ok_witness :
    re_convert_image envIdeal [(["a.png"], ([] : Bytes))] ["a.png"] 0 ≠
      (RunResult.ok (ConversionOutcome.Skipped 0), [(["a.png"], ([] : Bytes))]) :=
  target_zero_never_ok envIdeal [(["a.png"], [])] ["a.png"]
    (ConversionOutcome.Skipped 0) [(["a.png"], [])]

/-- C9 counterexample: an empty file under `target_size = 0`, with a
decoder that succeeds and encoders that produce zero bytes (the most
favorable codec), still fails with `ImageSizeExceedsTarget`: the claim
that the operation can succeed for an empty input file is false. -/
theorem target_zero_empty_file_fails :
    re_convert_image envIdeal [(["a.png"], ([] : Bytes))] ["a.png"] 0 =
      (RunResult.error Error.ImageSizeExceedsTarget, [(["a.png"], ([] : Bytes))]) := rfl

/-- C10: if processing reaches output-name derivation (file at or above
target, decode ok, some strategy under target) and the input path has no
file stem, the call panics with `image_path must be a file`; and for every
path with a file stem, no call ever panics. -/
theorem stemless_path_panics {Img : Type} (env : Env Img) :
    (∀ (fs : FS) (image_path : RPath) (t : Nat) (content : Bytes) (image : Img)
       (l₁ l₂ : List (ConversionFn Img)) (s : ConversionFn Img)
       (buf : Bytes) (ext : String),
       fsLookup fs image_path = some content →
       ¬ content.length < t →
       env.decode content = Except.ok image →
       CONVERSION_STRATEGIES env.encode = l₁ ++ s :: l₂ →
       (∀ st ∈ l₁, ∃ b e, st image = Except.ok (b, e) ∧ t ≤ b.length) →
       s image = Except.ok (buf, ext) →
       buf.length < t →
       path_file_stem image_path = none →
       re_convert_image env fs image_path t =
         (RunResult.panicked ("image_path must be a file"), fs)) ∧
    (∀ (fs : FS) (image_path : RPath) (t : Nat) (stem msg : String),
       path_file_stem image_path = some stem →
       (re_convert_image env fs image_path t).1 ≠ RunResult.panicked msg) := by
  constructor
  · intro fs image_path t content image l₁ l₂ s buf ext hread hsize hdec hcat hbig
      hok hlen hstem
    rw [re_convert_image_eq_try env fs image_path t content image hread hsize hdec, hcat,
      try_strategies_append image_path t content.length image fs l₁ (s :: l₂) hbig,
      try_strategies, hok]
    dsimp only []
    rw [if_neg (Nat.not_le_of_lt hlen), hstem]
  · intro fs image_path t stem msg hstem
    unfold re_convert_image
    cases hread : fsLookup fs image_path with
    | none => simp
    | some content =>
      dsimp only []
      by_cases hsize : content.length < t
      · rw [if_pos hsize]
        simp
      · rw [if_neg hsize]
        cases hdec : env.decode content with
        | error e => simp
        | ok image =>
          exact try_strategies_no_panic image_path t content.length image fs stem hstem
            (CONVERSION_STRATEGIES env.encode) msg

/-- Witness for C10: the stemless path `a/..` panics at a concrete input
where PNG encoding already wins, while `pic.png` never panics. -/
theorem stemless_path_panics_witness :
    re_convert_image envConv [(["a", ".."], [0, 0, 0])] ["a", ".."] 2 =
      (RunResult.panicked ("image_path must be a file"), [(["a", ".."], [0, 0, 0])]) ∧
    (re_convert_image envConv [(["pic.png"], [0, 0, 0])] ["pic.png"] 2).1 ≠
      RunResult.panicked ("nope") :=
  ⟨(stemless_path_panics envConv).1 [(["a", ".."], [0, 0, 0])] ["a", ".."] 2 [0, 0, 0] ()
      [] [convert_to_jpeg_100 envConv.encode, convert_to_jpeg_90 envConv.encode]
      (convert_to_png envConv.encode) [0] (".png")
      rfl (by decide) rfl rfl
      (fun st hst => absurd hst (List.not_mem_nil st))
      rfl (by decide) rfl,
   (stemless_path_panics envConv).2 [(["pic.png"], [0, 0, 0])] ["pic.png"] 2
      ("pic") ("nope") rfl⟩

end ReencImage
